import Mathlib

/-! Verification of the path-addressed document store in `database.py`
(`LocalDatabase`): key parsing (`__deserialize_key`), nested traversal
(`get_data` and `__find_nested_data`), and the mutating operations
(`set_data`, `delete_data`, `__update_database`).

The persisted JSON document is modelled by the inductive type `Value`:
a value is a string scalar or a mapping, and a mapping is an association
list of string keys and values (Python dicts are insertion-ordered, so an
association list is the faithful functional model; genuine Python dicts
never hold duplicate keys, which the predicate `wfEntries` captures).
Raised Python exceptions are modelled by the `Except PyError` monad.
-/

namespace ViolenceDb

/-- A JSON value as `database.py` manipulates it: a string scalar, or a
mapping from string keys to values (`dict` in insertion order). -/
inductive Value where
  | str : String → Value
  | obj : List (String × Value) → Value
deriving Repr

/-- The root document: the top-level mapping of the JSON file. -/
abbrev Entries := List (String × Value)

/-- Model of `d.get(k, None)` on a Python dict: the value at the first (in a real
dict, only) occurrence of key `k`, or `none` when absent. -/
def dictGet (k : String) : Entries → Option Value
  | [] => none
  | (k1, v1) :: rest => if k1 = k then some v1 else dictGet k rest

/-- Model of `d[k] = v` on a Python dict: replace the value at `k` in place when the
key is present, otherwise append the new binding at the end. -/
def dictSet (d : Entries) (k : String) (v : Value) : Entries :=
  match d with
  | [] => [(k, v)]
  | (k1, v1) :: rest => if k1 = k then (k1, v) :: rest else (k1, v1) :: dictSet rest k v

/-- Model of `d.pop(k, None)` on a Python dict: remove the binding at `k` when
present; absence is a no-op. -/
def dictPop (d : Entries) (k : String) : Entries :=
  match d with
  | [] => []
  | (k1, v1) :: rest => if k1 = k then rest else (k1, v1) :: dictPop rest k

/-- Whether key `k` occurs in the entry list (`k in d` in Python). -/
def hasKey (k : String) : Entries → Bool
  | [] => false
  | (k1, _) :: rest => k1 = k || hasKey k rest

mutual

/-- Representation invariant of a value coming from a real Python/JSON
document: every mapping in it has pairwise distinct keys. -/
def wfv : Value → Bool
  | .str _ => true
  | .obj d => wfEntries d

/-- Representation invariant of a mapping: no duplicate keys, and every
stored value is itself well formed. -/
def wfEntries : Entries → Bool
  | [] => true
  | (k, v) :: rest => !hasKey k rest && wfv v && wfEntries rest

end

/-- The `operation` parameter of `LocalDatabase.__find_nested_data`. -/
inductive Op where
  | set
  | delete
deriving DecidableEq

/-- Model of `LocalDatabase.__find_nested_data`, acting on the value stored at the
root key (`current_dict = db_content[key]` has already been fetched by the
caller-side model).  It walks `subkeys[:-1]` with
`current_dict.setdefault(subkey, ...)` with an empty mapping as the
default, vivifying missing intermediate levels as empty mappings, then performs the final operation:
`current_dict[subkeys[-1]] = value` for `set`,
`current_dict.pop(subkeys[-1], None)` for `delete`.  `none` models the
`AttributeError`/`TypeError` raised as soon as a step lands on a string
(a non-mapping) while sub-keys remain to process. -/
def find_nested_data (cur : Value) (subkeys : List String) (op : Op) (value : Value) :
    Option Value :=
  match subkeys with
  | [] => some cur
  | [last] =>
      match cur with
      | .str _ => none
      | .obj d =>
          match op with
          | .set => some (.obj (dictSet d last value))
          | .delete => some (.obj (dictPop d last))
  | sk :: rest =>
      match cur with
      | .str _ => none
      | .obj d =>
          match find_nested_data ((dictGet sk d).getD (.obj [])) rest op value with
          | none => none
          | some child => some (.obj (dictSet d sk child))

/-- Python `str.strip()` on the character list of the string: drop leading
and trailing whitespace. -/
def pyStrip (cs : List Char) : List Char :=
  ((cs.dropWhile Char.isWhitespace).reverse.dropWhile Char.isWhitespace).reverse

/-- Python `str.split(sep)` for a one-character separator: `"".split(sep)`
is `[""]`, and every occurrence of the separator opens a new (possibly
empty) segment. -/
def pySplit (sep : Char) : List Char → List (List Char)
  | [] => [[]]
  | c :: cs =>
      if c = sep then [] :: pySplit sep cs
      else
        match pySplit sep cs with
        | [] => [[c]]
        | seg :: segs => (c :: seg) :: segs

/-- Model of `LocalDatabase.__deserialize_key`: `key.strip().split('/')`, the first
segment becoming `main_key` and the remaining segments `subkeys`. -/
def deserialize_key (key : String) : String × List String :=
  match pySplit '/' (pyStrip key.data) with
  | [] => ("", [])
  | k :: s => (String.mk k, s.map String.mk)

/-- The Python exceptions the three operations can raise. -/
inductive PyError where
  /-- The repository's own `KeyNotFoundError`, carrying the offending key. -/
  | keyNotFoundError : String → PyError
  /-- Python's built-in `KeyError` from an unchecked `db_content[key]`. -/
  | keyError : String → PyError
  /-- Python `AttributeError`/`TypeError` from treating a string as a mapping. -/
  | attributeError : PyError
deriving DecidableEq, Repr

/-- Model of `LocalDatabase.__update_database`: rewrites the whole file with the new
content (the returned `Entries` is what is persisted) and unconditionally
returns `True`. -/
def update_database (db : Entries) : Bool × Entries := (true, db)

/-- The sub-key loop of `LocalDatabase.get_data`, entered with the root
value (a mapping): `data = data.get(subkey, None)` for each sub-key,
breaking with `None` on a miss; reaching a string while sub-keys remain
raises `AttributeError` (`str` has no `.get`). -/
def getDataLoop : Value → List String → Except PyError (Option Value)
  | v, [] => .ok (some v)
  | .obj d, sk :: rest =>
      match dictGet sk d with
      | none => .ok none
      | some v => getDataLoop v rest
  | .str _, _ :: _ => .error .attributeError

/-- Model of `LocalDatabase.get_data` after key parsing: `data = db.get(key, None)`;
the sub-key loop runs only when sub-keys are present and `data` is a
mapping, otherwise `data` is returned as is. -/
def getDataAt (db : Entries) (k : String) (subkeys : List String) :
    Except PyError (Option Value) :=
  match dictGet k db with
  | none => .ok none
  | some data =>
      match subkeys, data with
      | _ :: _, .obj _ => getDataLoop data subkeys
      | _, _ => .ok (some data)

/-- Model of `LocalDatabase.get_data` on a raw key string. -/
def get_data (db : Entries) (key : String) : Except PyError (Option Value) :=
  getDataAt db (deserialize_key key).1 (deserialize_key key).2

/-- Model of `LocalDatabase.set_data` after key parsing: raises `KeyNotFoundError`
when the root key is absent; with no sub-keys assigns `db[key] = value`
directly, otherwise delegates to `__find_nested_data` with operation
`set`; on success persists via `__update_database` and returns its
`True`. -/
def setDataAt (db : Entries) (k : String) (subkeys : List String) (value : Value) :
    Except PyError (Bool × Entries) :=
  match dictGet k db with
  | none => .error (.keyNotFoundError k)
  | some cur =>
      match subkeys with
      | [] => .ok (update_database (dictSet db k value))
      | _ :: _ =>
          match find_nested_data cur subkeys Op.set value with
          | none => .error .attributeError
          | some cur2 => .ok (update_database (dictSet db k cur2))

/-- Model of `LocalDatabase.set_data` on a raw key string. -/
def set_data (db : Entries) (key : String) (value : Value) :
    Except PyError (Bool × Entries) :=
  setDataAt db (deserialize_key key).1 (deserialize_key key).2 value

/-- Model of `LocalDatabase.delete_data` after key parsing: with no sub-keys,
`db.pop(key, None)`; with sub-keys, `__find_nested_data` with operation
`delete`, whose very first step `db_content[key]` raises a bare `KeyError`
when the root key is absent; on success persists via `__update_database`
and returns its `True`. -/
def delete_data_at (db : Entries) (k : String) (subkeys : List String) :
    Except PyError (Bool × Entries) :=
  match subkeys with
  | [] => .ok (update_database (dictPop db k))
  | _ :: _ =>
      match dictGet k db with
      | none => .error (.keyError k)
      | some cur =>
          match find_nested_data cur subkeys Op.delete (.str "") with
          | none => .error .attributeError
          | some cur2 => .ok (update_database (dictSet db k cur2))

/-- Model of `LocalDatabase.delete_data` on a raw key string. -/
def delete_data (db : Entries) (key : String) : Except PyError (Bool × Entries) :=
  delete_data_at db (deserialize_key key).1 (deserialize_key key).2

/-- The value delete's navigation builds under a fully missing sub-key
path: a chain of vivified mappings, empty at the end (the final `pop` of
an absent key changes nothing). -/
def chainDelete : List String → Value
  | [] => .obj []
  | [_] => .obj []
  | sk :: rest => .obj [(sk, chainDelete rest)]

/-- Rejoin split segments with the separator (inverse of `pySplit`). -/
def joinSep (sep : Char) : List (List Char) → List Char
  | [] => []
  | [seg] => seg
  | seg :: segs => seg ++ sep :: joinSep sep segs

/-! Dictionary lemmas -/

theorem dictGet_dictSet_self (d : Entries) (k : String) (v : Value) :
    dictGet k (dictSet d k v) = some v := by
  induction d with
  | nil => simp [dictGet, dictSet]
  | cons p rest ih =>
      obtain ⟨k1, v1⟩ := p
      by_cases h : k1 = k <;> simp [dictGet, dictSet, h, ih]

theorem dictSet_dictSet (d : Entries) (k : String) (v w : Value) :
    dictSet (dictSet d k v) k w = dictSet d k w := by
  induction d with
  | nil => simp [dictSet]
  | cons p rest ih =>
      obtain ⟨k1, v1⟩ := p
      by_cases h : k1 = k <;> simp [dictSet, h, ih]

theorem dictSet_self_of_dictGet (d : Entries) (k : String) (v : Value)
    (h : dictGet k d = some v) : dictSet d k v = d := by
  induction d with
  | nil => simp [dictGet] at h
  | cons p rest ih =>
      obtain ⟨k1, v1⟩ := p
      by_cases hk : k1 = k
      · simp [dictGet, hk] at h
        simp [dictSet, hk, h]
      · simp [dictGet, hk] at h
        simp [dictSet, hk, ih h]

theorem dictSet_absent (d : Entries) (k : String) (v : Value)
    (h : dictGet k d = none) : dictSet d k v = d ++ [(k, v)] := by
  induction d with
  | nil => simp [dictSet]
  | cons p rest ih =>
      obtain ⟨k1, v1⟩ := p
      by_cases hk : k1 = k
      · simp [dictGet, hk] at h
      · simp [dictGet, hk] at h
        simp [dictSet, hk, ih h]

theorem dictPop_absent (d : Entries) (k : String)
    (h : dictGet k d = none) : dictPop d k = d := by
  induction d with
  | nil => simp [dictPop]
  | cons p rest ih =>
      obtain ⟨k1, v1⟩ := p
      by_cases hk : k1 = k
      · simp [dictGet, hk] at h
      · simp [dictGet, hk] at h
        simp [dictPop, hk, ih h]

theorem dictGet_none_of_hasKey_false (d : Entries) (k : String)
    (h : hasKey k d = false) : dictGet k d = none := by
  induction d with
  | nil => simp [dictGet]
  | cons p rest ih =>
      obtain ⟨k1, v1⟩ := p
      simp [hasKey] at h
      simp [dictGet, h.1, ih h.2]

theorem hasKey_dictSet_of_ne (d : Entries) (k k1 : String) (v : Value)
    (hne : k1 ≠ k) : hasKey k1 (dictSet d k v) = hasKey k1 d := by
  induction d with
  | nil => simp [dictSet, hasKey, Ne.symm hne]
  | cons p rest ih =>
      obtain ⟨k2, v2⟩ := p
      by_cases hk : k2 = k <;> simp [dictSet, hasKey, hk, ih, Ne.symm hne]

theorem hasKey_dictPop_false (d : Entries) (k k1 : String)
    (h : hasKey k1 d = false) : hasKey k1 (dictPop d k) = false := by
  induction d with
  | nil => simp [dictPop, hasKey]
  | cons p rest ih =>
      obtain ⟨k2, v2⟩ := p
      simp [hasKey] at h
      by_cases hk : k2 = k
      · simpa [dictPop, hk] using h.2
      · simp [dictPop, hk, hasKey, h.1, ih h.2]

theorem wfEntries_dictSet (d : Entries) (k : String) (v : Value)
    (hd : wfEntries d = true) (hv : wfv v = true) :
    wfEntries (dictSet d k v) = true := by
  induction d with
  | nil => simp [dictSet, wfEntries, hasKey, hv]
  | cons p rest ih =>
      obtain ⟨k1, v1⟩ := p
      simp [wfEntries] at hd
      obtain ⟨⟨h1, h2⟩, h3⟩ := hd
      by_cases hk : k1 = k
      · simp [dictSet, hk, wfEntries, hv, h3]
        subst hk
        exact h1
      · simp [dictSet, hk, wfEntries, h2, ih h3,
          hasKey_dictSet_of_ne rest k k1 v hk, h1]

theorem wfEntries_dictPop (d : Entries) (k : String)
    (hd : wfEntries d = true) : wfEntries (dictPop d k) = true := by
  induction d with
  | nil => simp [dictPop, wfEntries]
  | cons p rest ih =>
      obtain ⟨k1, v1⟩ := p
      simp [wfEntries] at hd
      obtain ⟨⟨h1, h2⟩, h3⟩ := hd
      by_cases hk : k1 = k
      · simpa [dictPop, hk] using h3
      · simp [dictPop, hk, wfEntries, h2, ih h3,
          hasKey_dictPop_false rest k k1 h1]

theorem dictGet_dictPop_self (d : Entries) (k : String)
    (hd : wfEntries d = true) : dictGet k (dictPop d k) = none := by
  induction d with
  | nil => simp [dictPop, dictGet]
  | cons p rest ih =>
      obtain ⟨k1, v1⟩ := p
      simp [wfEntries] at hd
      obtain ⟨⟨h1, h2⟩, h3⟩ := hd
      by_cases hk : k1 = k
      · subst hk
        simpa [dictPop] using dictGet_none_of_hasKey_false rest k1 h1
      · simp [dictPop, hk, dictGet, ih h3]

theorem wfv_of_dictGet (d : Entries) (k : String) (v : Value)
    (hd : wfEntries d = true) (h : dictGet k d = some v) : wfv v = true := by
  induction d with
  | nil => simp [dictGet] at h
  | cons p rest ih =>
      obtain ⟨k1, v1⟩ := p
      simp [wfEntries] at hd
      obtain ⟨⟨h1, h2⟩, h3⟩ := hd
      by_cases hk : k1 = k
      · simp [dictGet, hk] at h
        exact h ▸ h2
      · simp [dictGet, hk] at h
        exact ih h3 h

/-! Traversal lemmas -/

theorem find_nested_obj (cur : Value) (s : List String) (op : Op) (v cur' : Value)
    (hs : s ≠ []) (h : find_nested_data cur s op v = some cur') :
    ∃ d, cur' = Value.obj d := by
  match s with
  | [] => exact absurd rfl hs
  | [last] =>
      cases cur with
      | str c => simp [find_nested_data] at h
      | obj d =>
          cases op <;> simp [find_nested_data] at h <;> exact ⟨_, h.symm⟩
  | sk :: s2 :: rest =>
      cases cur with
      | str c => simp [find_nested_data] at h
      | obj d =>
          cases hrec : find_nested_data ((dictGet sk d).getD (.obj [])) (s2 :: rest) op v with
          | none => simp [find_nested_data, hrec] at h
          | some child =>
              simp [find_nested_data, hrec] at h
              exact ⟨_, h.symm⟩

theorem getDataLoop_find_nested_set (cur : Value) (s : List String) (v cur' : Value)
    (hs : s ≠ []) (h : find_nested_data cur s Op.set v = some cur') :
    getDataLoop cur' s = Except.ok (some v) := by
  induction s generalizing cur cur' with
  | nil => exact absurd rfl hs
  | cons sk rest ih =>
      cases rest with
      | nil =>
          cases cur with
          | str c => simp [find_nested_data] at h
          | obj d =>
              simp [find_nested_data] at h
              subst h
              simp [getDataLoop, dictGet_dictSet_self]
      | cons s2 rest' =>
          cases cur with
          | str c => simp [find_nested_data] at h
          | obj d =>
              cases hrec : find_nested_data ((dictGet sk d).getD (.obj [])) (s2 :: rest') Op.set v with
              | none => simp [find_nested_data, hrec] at h
              | some child =>
                  simp [find_nested_data, hrec] at h
                  subst h
                  simp [getDataLoop, dictGet_dictSet_self,
                    ih _ _ (by simp) hrec]

theorem getDataLoop_append (cur v : Value) (p r : List String)
    (h : getDataLoop cur p = Except.ok (some v)) :
    getDataLoop cur (p ++ r) = getDataLoop v r := by
  induction p generalizing cur with
  | nil =>
      simp [getDataLoop] at h
      subst h
      simp
  | cons sk p' ih =>
      cases cur with
      | str c => simp [getDataLoop] at h
      | obj d =>
          cases hg : dictGet sk d with
          | none => simp [getDataLoop, hg] at h
          | some w =>
              simp [getDataLoop, hg] at h ⊢
              exact ih w h

theorem find_nested_set_prefix_obj (cur : Value) (p q : List String) (v cur' : Value)
    (hq : q ≠ []) (h : find_nested_data cur (p ++ q) Op.set v = some cur') :
    ∃ d, getDataLoop cur' p = Except.ok (some (Value.obj d)) := by
  induction p generalizing cur cur' with
  | nil =>
      obtain ⟨d, hd⟩ := find_nested_obj cur q Op.set v cur' hq (by simpa using h)
      exact ⟨d, by simp [getDataLoop, hd]⟩
  | cons sk p' ih =>
      cases hpq : p' ++ q with
      | nil => exact absurd (List.append_eq_nil.mp hpq).2 hq
      | cons x xs =>
          rw [List.cons_append, hpq] at h
          cases cur with
          | str c => simp [find_nested_data] at h
          | obj d =>
              cases hrec : find_nested_data ((dictGet sk d).getD (.obj [])) (x :: xs) Op.set v with
              | none => simp [find_nested_data, hrec] at h
              | some child =>
                  simp [find_nested_data, hrec] at h
                  subst h
                  obtain ⟨d2, hd2⟩ := ih _ _ (hpq ▸ hrec)
                  exact ⟨d2, by simp [getDataLoop, dictGet_dictSet_self, hd2]⟩

theorem find_nested_isSome_eq (cur : Value) (s : List String) (v w : Value) :
    (find_nested_data cur s Op.delete v).isSome = (find_nested_data cur s Op.set w).isSome := by
  induction s generalizing cur with
  | nil => simp [find_nested_data]
  | cons sk rest ih =>
      cases rest with
      | nil => cases cur <;> simp [find_nested_data]
      | cons s2 rest' =>
          cases cur with
          | str c => simp [find_nested_data]
          | obj d =>
              have hiso := ih ((dictGet sk d).getD (.obj []))
              cases h1 : find_nested_data ((dictGet sk d).getD (.obj [])) (s2 :: rest') Op.delete v with
              | none =>
                  cases h2 : find_nested_data ((dictGet sk d).getD (.obj [])) (s2 :: rest') Op.set w with
                  | none => simp [find_nested_data, h1, h2]
                  | some c2 => simp [h1, h2] at hiso
              | some c1 =>
                  cases h2 : find_nested_data ((dictGet sk d).getD (.obj [])) (s2 :: rest') Op.set w with
                  | none => simp [h1, h2] at hiso
                  | some c2 => simp [find_nested_data, h1, h2]

theorem find_nested_delete_of_empty (s : List String) (v : Value) (hs : s ≠ []) :
    find_nested_data (.obj []) s Op.delete v = some (chainDelete s) := by
  induction s with
  | nil => exact absurd rfl hs
  | cons sk rest ih =>
      cases rest with
      | nil => simp [find_nested_data, chainDelete, dictPop]
      | cons s2 rest' =>
          simp [find_nested_data, dictGet, ih (by simp), chainDelete, dictSet]

theorem find_nested_delete_vivify (d : Entries) (sk s2 : String) (rest : List String)
    (v : Value) (hg : dictGet sk d = none) :
    find_nested_data (.obj d) (sk :: s2 :: rest) Op.delete v =
      some (.obj (d ++ [(sk, chainDelete (s2 :: rest))])) := by
  simp [find_nested_data, hg, find_nested_delete_of_empty (s2 :: rest) v (by simp),
    dictSet_absent d sk _ hg]

theorem wfv_find_nested (cur : Value) (s : List String) (op : Op) (v cur' : Value)
    (hcur : wfv cur = true) (hv : wfv v = true)
    (h : find_nested_data cur s op v = some cur') : wfv cur' = true := by
  induction s generalizing cur cur' with
  | nil =>
      simp [find_nested_data] at h
      exact h ▸ hcur
  | cons sk rest ih =>
      cases rest with
      | nil =>
          cases cur with
          | str c => simp [find_nested_data] at h
          | obj d =>
              simp [wfv] at hcur
              cases op <;> simp [find_nested_data] at h <;> subst h
              · simpa [wfv] using wfEntries_dictSet d sk v hcur hv
              · simpa [wfv] using wfEntries_dictPop d sk hcur
      | cons s2 rest' =>
          cases cur with
          | str c => simp [find_nested_data] at h
          | obj d =>
              simp [wfv] at hcur
              have hchild : wfv ((dictGet sk d).getD (.obj [])) = true := by
                cases hg : dictGet sk d with
                | none => simp [wfv, wfEntries]
                | some w => simpa using wfv_of_dictGet d sk w hcur hg
              cases hrec : find_nested_data ((dictGet sk d).getD (.obj [])) (s2 :: rest') op v with
              | none => simp [find_nested_data, hrec] at h
              | some child =>
                  simp [find_nested_data, hrec] at h
                  subst h
                  simpa [wfv] using
                    wfEntries_dictSet d sk child hcur (ih _ _ hchild hrec)

theorem find_nested_delete_idem (cur : Value) (s : List String) (v cur' : Value)
    (hcur : wfv cur = true) (h : find_nested_data cur s Op.delete v = some cur') :
    find_nested_data cur' s Op.delete v = some cur' := by
  induction s generalizing cur cur' with
  | nil =>
      simp [find_nested_data] at h ⊢
  | cons sk rest ih =>
      cases rest with
      | nil =>
          cases cur with
          | str c => simp [find_nested_data] at h
          | obj d =>
              simp [find_nested_data] at h
              subst h
              simp [wfv] at hcur
              simp [find_nested_data,
                dictPop_absent (dictPop d sk) sk (dictGet_dictPop_self d sk hcur)]
      | cons s2 rest' =>
          cases cur with
          | str c => simp [find_nested_data] at h
          | obj d =>
              simp [wfv] at hcur
              have hchild : wfv ((dictGet sk d).getD (.obj [])) = true := by
                cases hg : dictGet sk d with
                | none => simp [wfv, wfEntries]
                | some w => simpa using wfv_of_dictGet d sk w hcur hg
              cases hrec : find_nested_data ((dictGet sk d).getD (.obj [])) (s2 :: rest') Op.delete v with
              | none => simp [find_nested_data, hrec] at h
              | some child =>
                  simp [find_nested_data, hrec] at h
                  subst h
                  simp [find_nested_data, dictGet_dictSet_self,
                    ih _ _ hchild hrec, dictSet_dictSet]

/-! Parser lemmas -/

theorem pySplit_ne_nil (sep : Char) (cs : List Char) : pySplit sep cs ≠ [] := by
  cases cs with
  | nil => simp [pySplit]
  | cons c cs' =>
      by_cases h : c = sep
      · simp [pySplit, h]
      · simp only [pySplit, if_neg h]
        cases pySplit sep cs' <;> simp

theorem joinSep_pySplit (sep : Char) (cs : List Char) :
    joinSep sep (pySplit sep cs) = cs := by
  induction cs with
  | nil => simp [pySplit, joinSep]
  | cons c cs' ih =>
      cases hs : pySplit sep cs' with
      | nil => exact absurd hs (pySplit_ne_nil sep cs')
      | cons seg segs =>
          rw [hs] at ih
          by_cases h : c = sep

          · simp only [pySplit, if_pos h, hs, joinSep, List.nil_append]
            rw [ih, h]
          · simp only [pySplit, if_neg h, hs]
            cases segs with
            | nil =>
                simp only [joinSep] at ih ⊢
                rw [ih]
            | cons seg2 segs' =>
                simp only [joinSep, List.cons_append] at ih ⊢
                rw [ih]

theorem pySplit_no_sep (sep : Char) (cs : List Char) (h : sep ∉ cs) :
    pySplit sep cs = [cs] := by
  induction cs with
  | nil => simp [pySplit]
  | cons c cs' ih =>
      simp at h
      simp [pySplit, Ne.symm h.1, ih h.2]

theorem pyStrip_decomposition (cs : List Char) :
    ∃ pre post, cs = pre ++ pyStrip cs ++ post
      ∧ pre.all Char.isWhitespace ∧ post.all Char.isWhitespace := by
  have hA : cs.dropWhile Char.isWhitespace =
      pyStrip cs ++ ((cs.dropWhile Char.isWhitespace).reverse.takeWhile Char.isWhitespace).reverse := by
    conv_lhs =>
      rw [← List.reverse_reverse (cs.dropWhile Char.isWhitespace),
        ← List.takeWhile_append_dropWhile (p := Char.isWhitespace)
          (l := (cs.dropWhile Char.isWhitespace).reverse)]
    rw [List.reverse_append]
    rfl
  refine ⟨cs.takeWhile Char.isWhitespace,
    ((cs.dropWhile Char.isWhitespace).reverse.takeWhile Char.isWhitespace).reverse, ?_, ?_, ?_⟩
  · conv_lhs =>
      rw [← List.takeWhile_append_dropWhile (p := Char.isWhitespace) (l := cs), hA]
    rw [List.append_assoc]
  · simp only [List.all_eq_true]
    intro c hc
    exact List.mem_takeWhile_imp hc
  · simp only [List.all_eq_true]
    intro c hc
    rw [List.mem_reverse] at hc
    exact List.mem_takeWhile_imp hc

/-! Claim theorems -/

/-- Claim C1: for every document and parsed key path whose root key is
present, when `set_data` succeeds, an immediately following `get_data` on
the persisted document returns the written value; with no sub-keys the
root value is replaced directly, and with sub-keys every intermediate
level of the path exists as a mapping in the persisted document (missing
ones having been created). -/
theorem claim_C1_set_then_get (db : Entries) (k : String) (s : List String) (v : Value)
    (b : Bool) (db2 : Entries)
    ( _hmem : hasKey k db = true)
    (hset : setDataAt db k s v = Except.ok (b, db2)) :
    getDataAt db2 k s = Except.ok (some v)
    ∧ (s = [] → db2 = dictSet db k v)
    ∧ (∀ p q, s = p ++ q → q ≠ [] →
        ∃ d, getDataAt db2 k p = Except.ok (some (Value.obj d))) := by
  cases hg : dictGet k db with
  | none => simp [setDataAt, hg] at hset
  | some cur =>
      cases s with
      | nil =>
          simp [setDataAt, hg, update_database] at hset
          obtain ⟨hb, hdb⟩ := hset
          subst hdb
          refine ⟨by simp [getDataAt, dictGet_dictSet_self], fun _ => rfl, ?_⟩
          intro p q hpq hq
          exact absurd (List.append_eq_nil.mp hpq.symm).2 hq
      | cons s1 srest =>
          cases hrec : find_nested_data cur (s1 :: srest) Op.set v with
          | none => simp [setDataAt, hg, hrec] at hset
          | some cur2 =>
              simp [setDataAt, hg, hrec, update_database] at hset
              obtain ⟨hb, hdb⟩ := hset
              subst hdb
              obtain ⟨d0, hd0⟩ := find_nested_obj cur (s1 :: srest) Op.set v cur2 (by simp) hrec
              refine ⟨?_, by simp, ?_⟩
              · rw [hd0] at hrec ⊢
                simp [getDataAt, dictGet_dictSet_self]
                exact getDataLoop_find_nested_set cur (s1 :: srest) v _ (by simp) hrec
              · intro p q hpq hq
                cases p with
                | nil => exact ⟨d0, by simp [getDataAt, dictGet_dictSet_self, hd0, getDataLoop]⟩
                | cons p1 p2 =>
                    obtain ⟨d2, hd2⟩ :=
                      find_nested_set_prefix_obj cur (p1 :: p2) q v cur2 hq (hpq ▸ hrec)
                    refine ⟨d2, ?_⟩
                    rw [hd0] at hd2 ⊢
                    simpa [getDataAt, dictGet_dictSet_self] using hd2

/-- Claim C1 witness: writing `"31"` at `users / user1 / age` in the example
document and reading it back. -/
theorem claim_C1_set_then_get_ok :
    getDataAt [("users", Value.obj [("user1", Value.obj [("age", Value.str "31")])])]
      "users" ["user1", "age"] = Except.ok (some (Value.str "31")) :=
  (claim_C1_set_then_get
    [("users", Value.obj [("user1", Value.obj [("age", Value.str "30")])])]
    "users" ["user1", "age"] (Value.str "31") true
    [("users", Value.obj [("user1", Value.obj [("age", Value.str "31")])])]
    rfl rfl).1

/-- Claim C2: `set_data` on a root key absent from the document fails with
`KeyNotFoundError` carrying that key, for any sub-key sequence, and never
returns success (so nothing is persisted and the root key is not
created). -/
theorem claim_C2_set_missing_root (db : Entries) (k : String) (s : List String) (v : Value)
    (hk : dictGet k db = none) :
    setDataAt db k s v = Except.error (PyError.keyNotFoundError k)
    ∧ ∀ r, setDataAt db k s v ≠ Except.ok r := by
  refine ⟨by simp [setDataAt, hk], ?_⟩
  intro r hr
  simp [setDataAt, hk] at hr

/-- Claim C2 witness: writing to the absent root key `missing` of the
example document. -/
theorem claim_C2_set_missing_root_ok :
    setDataAt [("users", Value.obj [("user1", Value.obj [("age", Value.str "30")])])]
      "missing" ["x"] (Value.str "v") = Except.error (PyError.keyNotFoundError "missing") :=
  (claim_C2_set_missing_root
    [("users", Value.obj [("user1", Value.obj [("age", Value.str "30")])])]
    "missing" ["x"] (Value.str "v") rfl).1

/-- Claim C3 counterexample: `get_data` CAN raise.  On a document whose
root key `a` holds a mapping in which `b` holds the string `"s"`, reading
`a/b/c` reaches that string with the sub-key `c` still to process, and
`"s".get(...)` raises `AttributeError` instead of returning the not-found
value. -/
theorem claim_C3_counterexample :
    get_data [("a", Value.obj [("b", Value.str "s")])] "a/b/c"
      = Except.error PyError.attributeError := rfl

/-- Claim C3 (amended): reading with a non-empty sub-key sequence below a
mapping root value never raises on a MISSING sub-key — at any traversal
step whose current mapping lacks the next sub-key, traversal stops early
and returns the not-found value — but when a traversal step lands on a
non-mapping (string) value while sub-keys remain, `get_data` raises a
type-access fault rather than returning not-found. -/
theorem claim_C3_get_miss_no_raise (db : Entries) (k : String) (d0 d2 : Entries)
    (p q : List String) (sk : String)
    (hk : dictGet k db = some (Value.obj d0))
    (hwalk : getDataLoop (Value.obj d0) p = Except.ok (some (Value.obj d2))) :
    (dictGet sk d2 = none → getDataAt db k (p ++ sk :: q) = Except.ok none)
    ∧ (∀ c, dictGet sk d2 = some (Value.str c) → q ≠ [] →
        getDataAt db k (p ++ sk :: q) = Except.error PyError.attributeError) := by
  have hloop : getDataAt db k (p ++ sk :: q) = getDataLoop (Value.obj d0) (p ++ sk :: q) := by
    cases p with
    | nil => simp [getDataAt, hk]
    | cons p1 p2 => simp [getDataAt, hk]
  rw [hloop, getDataLoop_append (Value.obj d0) (Value.obj d2) p (sk :: q) hwalk]
  constructor
  · intro hmiss
    simp [getDataLoop, hmiss]
  · intro c hstr hq
    cases q with
    | nil => exact absurd rfl hq
    | cons q1 q2 => simp [getDataLoop, hstr]

/-- Claim C3 witness: on the same document as the counterexample, reading
the missing sub-key `zz` returns not-found without raising, while
descending through the string at `b` raises. -/
theorem claim_C3_get_miss_no_raise_ok :
    getDataAt [("a", Value.obj [("b", Value.str "s")])] "a" ["zz"] = Except.ok none
    ∧ getDataAt [("a", Value.obj [("b", Value.str "s")])] "a" ["b", "c"]
        = Except.error PyError.attributeError :=
  ⟨(claim_C3_get_miss_no_raise [("a", Value.obj [("b", Value.str "s")])] "a"
      [("b", Value.str "s")] [("b", Value.str "s")] [] [] "zz" rfl rfl).1 rfl,
   (claim_C3_get_miss_no_raise [("a", Value.obj [("b", Value.str "s")])] "a"
      [("b", Value.str "s")] [("b", Value.str "s")] [] ["c"] "b" rfl rfl).2 "s" rfl
      (by simp)⟩

/-- Claim C4 counterexample: parsing CAN produce an empty root key.  The
input `"/a"` trims to itself and splits into `["", "a"]`, so the root key
is the empty string. -/
theorem claim_C4_counterexample : (deserialize_key "/a").1 = "" := rfl

/-- Claim C4 (amended): for every input key string whose trimmed form is
non-empty and does not begin with the separator, the root key produced by
parsing is non-empty; and for every input, the root key followed by the
sub-keys is exactly the segment list of the split, so the sub-key sequence
preserves the input order of the remaining segments. -/
theorem claim_C4_root_nonempty (raw : String)
    (h1 : pyStrip raw.data ≠ [])
    (h2 : (pyStrip raw.data).head? ≠ some '/') :
    (deserialize_key raw).1 ≠ ""
    ∧ (deserialize_key raw).1.data :: ((deserialize_key raw).2.map String.data)
        = pySplit '/' (pyStrip raw.data) := by
  cases hstrip : pyStrip raw.data with
  | nil => exact absurd hstrip h1
  | cons c cs =>
      have hc : c ≠ '/' := by
        intro hc
        rw [hstrip, hc] at h2
        exact h2 rfl
      cases hs : pySplit '/' cs with
      | nil => exact absurd hs (pySplit_ne_nil '/' cs)
      | cons seg segs =>
          have hsplit : pySplit '/' (pyStrip raw.data) = (c :: seg) :: segs := by
            rw [hstrip]
            simp only [pySplit, if_neg hc, hs]
          constructor
          · intro habs
            have : (deserialize_key raw).1.data = "".data := by rw [habs]
            simp only [deserialize_key, hsplit] at this
            simp [String.data] at this
          · simp only [deserialize_key, hsplit, List.map_map]
            simp only [pySplit, if_neg hc, hs]
            have hid : String.data ∘ String.mk = id := rfl
            simp [hid]

/-- Claim C4 witness: parsing `" users/user1 "` yields the non-empty root
key `users`, and root key plus sub-keys list the split segments in
order. -/
theorem claim_C4_root_nonempty_ok :
    (deserialize_key " users/user1 ").1 ≠ ""
    ∧ (deserialize_key " users/user1 ").1.data
        :: ((deserialize_key " users/user1 ").2.map String.data)
        = pySplit '/' (pyStrip " users/user1 ".data) :=
  claim_C4_root_nonempty " users/user1 " (by decide) (by decide)

/-- Claim C5 counterexample: `delete_data` on a present root key with a
non-empty sub-key sequence does NOT always report success: when the root
key's value is a string, navigation faults (`AttributeError`) and nothing
is persisted. -/
theorem claim_C5_counterexample :
    delete_data_at [("a", Value.str "x")] "a" ["b"]
      = Except.error PyError.attributeError := rfl

/-- Claim C5 (amended): for a present root key and non-empty sub-keys,
`delete_data` navigates exactly as write does — succeeding or faulting on
the same inputs, and creating a chain of empty mappings below a missing
intermediate level — removes the final sub-key from the second-to-last
level if present (absence at depth one is a pure no-op), and whenever
navigation does not fault it persists the full document and reports
success regardless of whether anything was removed; when navigation lands
on a non-mapping it raises the same fault as write and persists
nothing. -/
theorem claim_C5_delete_nested (db : Entries) (k : String) (cur : Value) (s : List String)
    (hk : dictGet k db = some cur) (hs : s ≠ []) :
    (∀ cur2, find_nested_data cur s Op.delete (Value.str "") = some cur2 →
        delete_data_at db k s = Except.ok (true, dictSet db k cur2))
    ∧ (find_nested_data cur s Op.delete (Value.str "") = none →
        delete_data_at db k s = Except.error PyError.attributeError)
    ∧ (∀ v w, (find_nested_data cur s Op.delete v).isSome
        = (find_nested_data cur s Op.set w).isSome)
    ∧ (∀ d last, cur = Value.obj d → s = [last] → dictGet last d = none →
        delete_data_at db k s = Except.ok (true, db))
    ∧ (∀ d sk s2 rest v, cur = Value.obj d → s = sk :: s2 :: rest → dictGet sk d = none →
        find_nested_data cur s Op.delete v
          = some (Value.obj (d ++ [(sk, chainDelete (s2 :: rest))]))) := by
  cases s with
  | nil => exact absurd rfl hs
  | cons s1 srest =>
      refine ⟨?_, ?_, ?_, ?_, ?_⟩
      · intro cur2 hrec
        simp [delete_data_at, hk, hrec, update_database]
      · intro hrec
        simp [delete_data_at, hk, hrec]
      · intro v w
        exact find_nested_isSome_eq cur (s1 :: srest) v w
      · intro d last hcur hsing hmiss
        obtain ⟨hlast, hrest⟩ := List.cons_eq_cons.mp hsing
        subst hlast hrest hcur
        have hrec : find_nested_data (Value.obj d) [s1] Op.delete (Value.str "")
            = some (Value.obj d) := by
          simp [find_nested_data, dictPop_absent d s1 hmiss]
        simp [delete_data_at, hk, hrec, update_database, dictSet_self_of_dictGet db k _ hk]
      · intro d sk s2 rest v hcur hshape hmiss
        obtain ⟨hsk, hrest⟩ := List.cons_eq_cons.mp hshape
        subst hsk hrest hcur
        exact find_nested_delete_vivify d s1 s2 rest v hmiss

/-- Claim C5 witness: deleting `users / user1 / age` from the example
document persists the document with `age` removed and reports success. -/
theorem claim_C5_delete_nested_ok :
    delete_data_at [("users", Value.obj [("user1", Value.obj [("age", Value.str "30")])])]
      "users" ["user1", "age"]
      = Except.ok (true, [("users", Value.obj [("user1", Value.obj [])])]) :=
  (claim_C5_delete_nested
    [("users", Value.obj [("user1", Value.obj [("age", Value.str "30")])])]
    "users" (Value.obj [("user1", Value.obj [("age", Value.str "30")])])
    ["user1", "age"] rfl (by simp)).1 (Value.obj [("user1", Value.obj [])]) rfl

/-- Claim C6: on a well-formed document (a real Python dict has no
duplicate keys), when a first `delete_data` succeeds, running it a second
time produces the same final persisted document and result; and delete
with empty sub-keys on an absent root key is a no-op that returns
success. -/
theorem claim_C6_delete_idempotent (db : Entries) (k : String) (s : List String)
    (b : Bool) (db2 : Entries)
    (hwf : wfEntries db = true)
    (hdel : delete_data_at db k s = Except.ok (b, db2)) :
    delete_data_at db2 k s = Except.ok (b, db2)
    ∧ (dictGet k db = none → s = [] → db2 = db) := by
  cases s with
  | nil =>
      simp [delete_data_at, update_database] at hdel
      obtain ⟨hb, hdb⟩ := hdel
      subst hdb hb
      constructor
      · simp [delete_data_at, update_database,
          dictPop_absent (dictPop db k) k (dictGet_dictPop_self db k hwf)]
      · intro hnone _
        exact dictPop_absent db k hnone
  | cons s1 srest =>
      cases hg : dictGet k db with
      | none => simp [delete_data_at, hg] at hdel
      | some cur =>
          cases hrec : find_nested_data cur (s1 :: srest) Op.delete (Value.str "") with
          | none => simp [delete_data_at, hg, hrec] at hdel
          | some cur2 =>
              simp [delete_data_at, hg, hrec, update_database] at hdel
              obtain ⟨hb, hdb⟩ := hdel
              subst hdb hb
              constructor
              · have hcurwf : wfv cur = true := wfv_of_dictGet db k cur hwf hg
                have hidem := find_nested_delete_idem cur (s1 :: srest) (Value.str "") cur2
                  hcurwf hrec
                simp [delete_data_at, dictGet_dictSet_self, hidem, update_database,
                  dictSet_dictSet]
              · intro hnone
                exact Option.noConfusion hnone

/-- Claim C6 witness: deleting `users / user1 / age` twice from the example
document gives the same persisted document as deleting it once. -/
theorem claim_C6_delete_idempotent_ok :
    delete_data_at [("users", Value.obj [("user1", Value.obj [])])] "users" ["user1", "age"]
      = Except.ok (true, [("users", Value.obj [("user1", Value.obj [])])]) :=
  (claim_C6_delete_idempotent
    [("users", Value.obj [("user1", Value.obj [("age", Value.str "30")])])]
    "users" ["user1", "age"] true
    [("users", Value.obj [("user1", Value.obj [])])] rfl rfl).1

/-- Claim C7: `get_data` on a root key absent from the root mapping
returns the not-found value (for any sub-key sequence); and when the root
key is present with a non-mapping (string) value while the sub-key
sequence is non-empty, the sub-keys are silently ignored and the root
value itself is returned. -/
theorem claim_C7_get_root_cases (db : Entries) (k : String) (s : List String) :
    (dictGet k db = none → getDataAt db k s = Except.ok none)
    ∧ (∀ c, dictGet k db = some (Value.str c) → s ≠ [] →
        getDataAt db k s = Except.ok (some (Value.str c))) := by
  constructor
  · intro h
    simp [getDataAt, h]
  · intro c h hs
    cases s with
    | nil => exact absurd rfl hs
    | cons s1 srest => simp [getDataAt, h]

/-- Claim C7 witness: reading the absent root key `zzz` of the example
document returns not-found, and reading `a/b` when `a` holds the string
`"x"` returns `"x"` itself. -/
theorem claim_C7_get_root_cases_ok :
    getDataAt [("users", Value.obj [("user1", Value.obj [("age", Value.str "30")])])]
      "zzz" ["x"] = Except.ok none
    ∧ getDataAt [("a", Value.str "x")] "a" ["b"] = Except.ok (some (Value.str "x")) :=
  ⟨(claim_C7_get_root_cases
      [("users", Value.obj [("user1", Value.obj [("age", Value.str "30")])])]
      "zzz" ["x"]).1 rfl,
   (claim_C7_get_root_cases [("a", Value.str "x")] "a" ["b"]).2 "x" rfl (by simp)⟩

/-- Claim C8: parsing trims surrounding whitespace, then splits on the
separator; root key then sub-keys are exactly the split segments in
original order (so joining them with the separator reconstructs the
trimmed input), and an input with no separator yields an empty sub-key
sequence.  The trimmed form differs from the raw input only by whitespace
removed at both ends. -/
theorem claim_C8_parse_spec (raw : String) :
    (deserialize_key raw).1.data :: ((deserialize_key raw).2.map String.data)
        = pySplit '/' (pyStrip raw.data)
    ∧ joinSep '/' ((deserialize_key raw).1.data :: ((deserialize_key raw).2.map String.data))
        = pyStrip raw.data
    ∧ ('/' ∉ pyStrip raw.data → (deserialize_key raw).2 = [])
    ∧ (∃ pre post, raw.data = pre ++ pyStrip raw.data ++ post
        ∧ pre.all Char.isWhitespace ∧ post.all Char.isWhitespace) := by
  have hid : String.data ∘ String.mk = id := rfl
  have hsegs : (deserialize_key raw).1.data :: ((deserialize_key raw).2.map String.data)
      = pySplit '/' (pyStrip raw.data) := by
    cases hs : pySplit '/' (pyStrip raw.data) with
    | nil => exact absurd hs (pySplit_ne_nil '/' (pyStrip raw.data))
    | cons seg segs =>
        simp only [deserialize_key, hs, List.map_map]
        simp [hid]
  refine ⟨hsegs, ?_, ?_, pyStrip_decomposition raw.data⟩
  · rw [hsegs, joinSep_pySplit]
  · intro hnosep
    have hone : pySplit '/' (pyStrip raw.data) = [pyStrip raw.data] :=
      pySplit_no_sep '/' (pyStrip raw.data) hnosep
    have := hsegs
    rw [hone] at this
    have hmap : (deserialize_key raw).2.map String.data = [] := (List.cons_eq_cons.mp this).2
    exact List.map_eq_nil_iff.mp hmap

/-- Claim C8 witness: parsing `"  users  "` (no separator) yields an empty
sub-key sequence. -/
theorem claim_C8_parse_spec_ok : (deserialize_key "  users  ").2 = [] :=
  (claim_C8_parse_spec "  users  ").2.2.1 (by decide)

/-- Claim C9: whenever `set_data` or `delete_data` returns normally, the
returned boolean is `True`: the persist step `__update_database`
unconditionally returns `True`, so the documented `False` outcome is
unreachable. -/
theorem claim_C9_returns_true (db db2 : Entries) (k : String) (s : List String)
    (v : Value) (b : Bool) :
    (setDataAt db k s v = Except.ok (b, db2) → b = true)
    ∧ (delete_data_at db k s = Except.ok (b, db2) → b = true)
    ∧ (∀ d, (update_database d).1 = true) := by
  refine ⟨?_, ?_, fun d => rfl⟩
  · intro h
    cases hg : dictGet k db with
    | none => simp [setDataAt, hg] at h
    | some cur =>
        cases s with
        | nil =>
            simp [setDataAt, hg, update_database] at h
            exact h.1
        | cons s1 srest =>
            cases hrec : find_nested_data cur (s1 :: srest) Op.set v with
            | none => simp [setDataAt, hg, hrec] at h
            | some cur2 =>
                simp [setDataAt, hg, hrec, update_database] at h
                exact h.1
  · intro h
    cases s with
    | nil =>
        simp [delete_data_at, update_database] at h
        exact h.1
    | cons s1 srest =>
        cases hg : dictGet k db with
        | none => simp [delete_data_at, hg] at h
        | some cur =>
            cases hrec : find_nested_data cur (s1 :: srest) Op.delete (Value.str "") with
            | none => simp [delete_data_at, hg, hrec] at h
            | some cur2 =>
                simp [delete_data_at, hg, hrec, update_database] at h
                exact h.1

/-- Claim C9 witness: a normally returning write and a normally returning
delete both return `True`. -/
theorem claim_C9_returns_true_ok : (true : Bool) = true ∧ (true : Bool) = true :=
  ⟨(claim_C9_returns_true [("a", Value.str "1")] [("a", Value.str "2")] "a" []
      (Value.str "2") true).1 rfl,
   (claim_C9_returns_true [("a", Value.str "1")] [] "a" [] (Value.str "2") true).2.1 rfl⟩

/-- Claim C10: `delete_data` on a root key absent from the root mapping
with a non-empty sub-key sequence raises the generic `KeyError` (the
unchecked `db_content[key]` in `__find_nested_data`), not the dedicated
`KeyNotFoundError` and not a successful no-op; nothing is persisted. -/
theorem claim_C10_delete_missing_root (db : Entries) (k s1 : String) (srest : List String)
    (hk : dictGet k db = none) :
    delete_data_at db k (s1 :: srest) = Except.error (PyError.keyError k)
    ∧ delete_data_at db k (s1 :: srest) ≠ Except.error (PyError.keyNotFoundError k)
    ∧ ∀ r, delete_data_at db k (s1 :: srest) ≠ Except.ok r := by
  refine ⟨by simp [delete_data_at, hk], ?_, ?_⟩
  · intro h
    simp [delete_data_at, hk] at h
  · intro r h
    simp [delete_data_at, hk] at h

/-- Claim C10 witness: deleting `missing/x` from the example document
raises the bare `KeyError` for `missing`. -/
theorem claim_C10_delete_missing_root_ok :
    delete_data_at [("users", Value.obj [("user1", Value.obj [("age", Value.str "30")])])]
      "missing" ["x"] = Except.error (PyError.keyError "missing") :=
  (claim_C10_delete_missing_root
    [("users", Value.obj [("user1", Value.obj [("age", Value.str "30")])])]
    "missing" "x" [] rfl).1

end ViolenceDb
